import Mathlib

/-!
Shallow embedding, in Lean 4, of the hybrid aggregation engine of the
repository `custom-mdb-agg` (file `custom_mdb_agg/aggregator.py`), together
with theorems settling the specification claims about the engine.

Python values that can appear in documents and expressions are modelled by
the inductive type `Value` (null / bool / int / string / list / document).
Python floats never occur in the claims under study and are not modelled.
Python dictionaries are modelled as ordered association lists with unique
keys, matching insertion-ordered dicts; `List.lookup` is dict lookup.

The external MongoDB engine, the uuid stream and the drop-failure behaviour
of the database are parameters of the embedding (`nativeEval`, `fresh`,
`dropFails`): they are external collaborators of the code under study.
-/

/-- A Python/BSON-like value: null, boolean, integer, string, list or
(ordered) document. -/
inductive Value where
  | null : Value
  | bool : Bool → Value
  | int : Int → Value
  | str : String → Value
  | list : List Value → Value
  | doc : List (String × Value) → Value

/-- A document is a Python dict from field names to values. -/
abbrev Doc := List (String × Value)

/-- The Python exceptions the engine can raise, as one error type.
`valueError` is Python `ValueError` (the spec calls the arity error
`OperatorArgumentError`); `pyMongoError` is `pymongo.errors.PyMongoError`
(the spec's `EngineExecutionError`); `emptyInsert` is the error
`insert_many` raises on an empty document batch; `notImplementedError`,
`typeError`, `attributeError` and `stopIteration` are the corresponding
Python exceptions. -/
inductive AggError where
  | valueError : String → AggError
  | typeError : AggError
  | attributeError : AggError
  | stopIteration : AggError
  | notImplementedError : String → AggError
  | pyMongoError : String → AggError
  | emptyInsert : AggError
deriving Repr, DecidableEq

/-- A custom operator handler: takes the document and the verbatim
(unevaluated) argument expression, returns a value or raises. -/
abbrev Handler := Doc → Value → Except AggError Value

/-- The operator registry `self.custom_operators`: a Python dict from
operator name to handler, modelled as an association list. -/
abbrev Registry := List (String × Handler)

/-- `name in self.custom_operators`. -/
def isRegistered (reg : Registry) (name : String) : Bool :=
  (reg.lookup name).isSome

/-- Python `s.startswith('$')`: the first character is `$`. Stated over
the character list of the string (code points), as Python strings are
sequences of code points. -/
def startsWithDollar (s : String) : Bool :=
  match s.data with
  | [] => false
  | c :: _ => c = '$'

/-- Python `s[1:]` on a string: all characters after the first. -/
def strTail (s : String) : String :=
  ⟨s.data.drop 1⟩

/-- The loop of Python `s.split('.')`: accumulate the current segment
(in reverse) and cut at every `.`. -/
def splitDotAux : List Char → List Char → List String
  | [], acc => [⟨acc.reverse⟩]
  | c :: rest, acc =>
      if c = '.' then (⟨acc.reverse⟩ : String) :: splitDotAux rest []
      else splitDotAux rest (c :: acc)

/-- Python `s.split('.')`: split on every dot; `""` yields `[""]` and
consecutive dots yield empty segments, as in Python. -/
def splitDot (s : String) : List String :=
  splitDotAux s.data []

/-- Overwrite-or-append assignment `d[name] = func` on an association
list, keeping the position of an existing key (Python dict update). -/
def assocSet (reg : Registry) (name : String) (func : Handler) : Registry :=
  match reg with
  | [] => [(name, func)]
  | (m, g) :: rest =>
      if m = name then (name, func) :: rest else (m, g) :: assocSet rest name func

/-- `add_custom_operator`: rejects names not starting with `$`, otherwise
stores the handler (overwriting an existing one). -/
def addCustomOperator (reg : Registry) (name : String) (func : Handler) :
    Except AggError Registry :=
  if startsWithDollar name then .ok (assocSet reg name func)
  else .error (.valueError "Custom operator name must start with '$'")

/-- `remove_custom_operator`: deletes the entry if present, no-op
otherwise. -/
def removeCustomOperator (reg : Registry) (name : String) : Registry :=
  reg.filter (fun p => p.1 ≠ name)

/-- Is the value a Python dict or list (`isinstance(value, (dict, list))`)? -/
def isContainer : Value → Bool
  | .doc _ => true
  | .list _ => true
  | _ => false

mutual

/-- The inner `check_expr` of `contains_custom_operator`: on a dict, scan
entries in order, succeeding when a key is a registered operator name and
otherwise recursing into dict- or list-valued entries; on a list, recurse
into the items; anything else is `False`. -/
def checkExpr (reg : Registry) : Value → Bool
  | .doc fields => checkFields reg fields
  | .list xs => checkItems reg xs
  | _ => false

/-- The dict loop of `check_expr`, entry by entry. -/
def checkFields (reg : Registry) : List (String × Value) → Bool
  | [] => false
  | (key, value) :: rest =>
      if isRegistered reg key then true
      else if isContainer value then
        if checkExpr reg value then true else checkFields reg rest
      else checkFields reg rest

/-- The list loop of `check_expr`, item by item. -/
def checkItems (reg : Registry) : List Value → Bool
  | [] => false
  | item :: rest => if checkExpr reg item then true else checkItems reg rest

end

/-- A pipeline stage: a Python dict (association list of operator name and
argument expression). -/
abbrev Stage := List (String × Value)

/-- `contains_custom_operator(stage)`: apply `check_expr` to the stage
dict. -/
def containsCustomOperator (reg : Registry) (stage : Stage) : Bool :=
  checkExpr reg (.doc stage)

/-- The traversal loop of `get_field_value`: walk the already-split path
segments; at each segment require the current value to be a dict holding
the key, otherwise return `None` immediately. -/
def walkPath : Value → List String → Value
  | v, [] => v
  | .doc fields, f :: rest =>
      match fields.lookup f with
      | some w => walkPath w rest
      | none => .null
  | _, _ :: _ => .null
termination_by structural _v segs => segs

/-- `get_field_value(doc, field_path)`: split the path on `.` and
traverse. -/
def getFieldValue (doc : Doc) (fieldPath : String) : Value :=
  walkPath (.doc doc) (splitDot fieldPath)

/-- Python `len(v)`: length of a string (in code points), list or dict;
`none` models the `TypeError` raised for values without a length. -/
def pyLen : Value → Option Int
  | .str s => some s.length
  | .list xs => some xs.length
  | .doc fields => some fields.length
  | _ => none

/-- A Python value usable as a slice index: integers, and booleans (which
are integers in Python). `none` models the `TypeError` for other types. -/
def pyIndex : Value → Option Int
  | .int n => some n
  | .bool b => some (if b then 1 else 0)
  | _ => none

mutual

/-- Python `repr(v)` for the modelled values (string escaping inside
`repr` of strings is not reproduced; no claim depends on it). -/
def pyRepr : Value → String
  | .null => "None"
  | .bool b => if b then "True" else "False"
  | .int n => toString n
  | .str s => "'" ++ s ++ "'"
  | .list xs => "[" ++ ", ".intercalate (pyReprItems xs) ++ "]"
  | .doc fields => "\x7b" ++ ", ".intercalate (pyReprFields fields) ++ "\x7d"

/-- `repr` of the items of a list. -/
def pyReprItems : List Value → List String
  | [] => []
  | x :: rest => pyRepr x :: pyReprItems rest

/-- `repr` of the entries of a dict. -/
def pyReprFields : List (String × Value) → List String
  | [] => []
  | (k, v) :: rest => ("'" ++ k ++ "': " ++ pyRepr v) :: pyReprFields rest

end

/-- Python `str(v)`: identity on strings, `repr` otherwise. -/
def pyStr : Value → String
  | .str s => s
  | v => pyRepr v

/-- Normalize one bound of a Python slice `[i:j]` over a sequence of the
given length: negative indices count from the end, then both are clamped
into `[0, length]`. -/
def pyNorm (length : Nat) (i : Int) : Nat :=
  if i < 0 then (i + length).toNat else min i.toNat length

/-- Python list slicing `xs[i:j]`. -/
def pySliceList {α : Type} (xs : List α) (i j : Int) : List α :=
  (xs.drop (pyNorm xs.length i)).take (pyNorm xs.length j - pyNorm xs.length i)

/-- Python string slicing `s[i:j]` (over code points). -/
def pySliceStr (s : String) (i j : Int) : String :=
  ⟨pySliceList s.data i j⟩

mutual

/-- `process_expr(expr, doc)`: a single-key dict dispatches to a
registered custom operator (handler gets the argument verbatim), else to
the built-in table when the key starts with `$`, else is rebuilt with the
value processed; a multi-key (or empty) dict has every value processed;
a list has every item processed; a `$`-prefixed string is a field path
resolved after dropping the `$`; anything else is returned unchanged. -/
def processExpr (reg : Registry) (expr : Value) (doc : Doc) :
    Except AggError Value :=
  match expr with
  | .doc [(key, value)] =>
      match reg.lookup key with
      | some handler => handler doc value
      | none =>
          if startsWithDollar key then evaluateOperator reg key value doc
          else do
            let r ← processExpr reg value doc
            .ok (.doc [(key, r)])
  | .doc fields => do
      let rs ← processFields reg fields doc
      .ok (.doc rs)
  | .list xs => do
      let ys ← processItems reg xs doc
      .ok (.list ys)
  | .str s =>
      if startsWithDollar s then .ok (getFieldValue doc (strTail s)) else .ok (.str s)
  | v => .ok v
termination_by (sizeOf expr, 0)

/-- The dict comprehension of `process_expr`: keys kept, values
processed in order. -/
def processFields (reg : Registry) (fields : List (String × Value)) (doc : Doc) :
    Except AggError (List (String × Value)) :=
  match fields with
  | [] => .ok []
  | (k, v) :: rest => do
      let r ← processExpr reg v doc
      let rs ← processFields reg rest doc
      .ok ((k, r) :: rs)
termination_by (sizeOf fields, 0)

/-- The list comprehension of `process_expr`: items processed in order. -/
def processItems (reg : Registry) (xs : List Value) (doc : Doc) :
    Except AggError (List Value) :=
  match xs with
  | [] => .ok []
  | x :: rest => do
      let y ← processExpr reg x doc
      let ys ← processItems reg rest doc
      .ok (y :: ys)
termination_by (sizeOf xs, 0)

/-- `evaluate_operator(operator, value, doc)`: the fixed built-in table.
`$concat` joins `str(part)` over the iterated evaluated value (list items,
the string itself, or dict keys); `$strLenCP` is Python `len` of the
evaluated value; `$toUpper`/`$toLower` stringify and change case;
`$substr` requires `len(args) == 3` and then slices Python-style; any
other operator raises `NotImplementedError`. -/
def evaluateOperator (reg : Registry) (operator : String) (value : Value) (doc : Doc) :
    Except AggError Value :=
  if operator = "$concat" then do
    let parts ← processExpr reg value doc
    match parts with
    | .list xs => .ok (.str (String.join (xs.map pyStr)))
    | .str s => .ok (.str s)
    | .doc fields => .ok (.str (String.join (fields.map (fun p => p.1))))
    | _ => .error .typeError
  else if operator = "$strLenCP" then do
    let string ← processExpr reg value doc
    match pyLen string with
    | some n => .ok (.int n)
    | none => .error .typeError
  else if operator = "$toUpper" then do
    let string ← processExpr reg value doc
    .ok (.str (pyStr string).toUpper)
  else if operator = "$toLower" then do
    let string ← processExpr reg value doc
    .ok (.str (pyStr string).toLower)
  else if operator = "$substr" then do
    let args ← processExpr reg value doc
    match pyLen args with
    | none => .error .typeError
    | some n =>
        if n ≠ 3 then .error (.valueError "$substr requires three arguments")
        else
          match args with
          | .list [a, b, c] =>
              match pyIndex b, pyIndex c with
              | some start, some length =>
                  match a with
                  | .str s => .ok (.str (pySliceStr s start (start + length)))
                  | .list xs => .ok (.list (pySliceList xs start (start + length)))
                  | _ => .error .typeError
              | _, _ => .error .typeError
          | _ => .error .typeError
  else .error (.notImplementedError ("Operator " ++ operator ++ " not implemented."))
termination_by (sizeOf value, 1)

end



/-- Python `isinstance(value, int) and value == 1` over the modelled
values: Python booleans are integers, so integer 1 and `True` both
match. -/
def isInclusionMarker : Value → Bool
  | .int n => n = 1
  | .bool b => b
  | _ => false

/-- Python `value == 0` over the modelled values: integer 0 and `False`
both match; no other modelled value compares equal to 0. -/
def isExclusionMarker : Value → Bool
  | .int n => n = 0
  | .bool b => !b
  | _ => false

/-- The per-document loop body of `process_custom_stage` for
`$project`/`$addFields`: walk the stage expression's fields in order; the
inclusion marker (`isinstance(value, int) and value == 1`, so integer 1 or
`True`) copies `doc.get(key)` (null when absent); the exclusion marker
(`value == 0`, so integer 0 or `False`) skips the field; anything else is
assigned the processed expression. -/
def processDoc (reg : Registry) (fields : List (String × Value)) (doc : Doc) :
    Except AggError Doc :=
  match fields with
  | [] => .ok []
  | (key, value) :: rest =>
      if isInclusionMarker value then do
        let r ← processDoc reg rest doc
        .ok ((key, (doc.lookup key).getD .null) :: r)
      else if isExclusionMarker value then
        processDoc reg rest doc
      else do
        let v ← processExpr reg value doc
        let r ← processDoc reg rest doc
        .ok ((key, v) :: r)

/-- `process_custom_stage(documents, stage)`: take the first entry of the
stage dict (`next(iter(stage.items()))`, `StopIteration` on an empty
dict); for `$project`/`$addFields` the argument must be a dict
(`AttributeError` otherwise) and every document is processed in order;
any other operator raises `NotImplementedError`. -/
def processCustomStage (reg : Registry) (documents : List Doc) (stage : Stage) :
    Except AggError (List Doc) :=
  match stage with
  | [] => .error .stopIteration
  | (operator, expr) :: _ =>
      if operator = "$project" ∨ operator = "$addFields" then
        match expr with
        | .doc fields => documents.mapM (fun doc => processDoc reg fields doc)
        | _ => .error .attributeError
      else .error (.notImplementedError
        ("Custom processing for operator " ++ operator ++ " is not implemented."))

/-- The external document store: collection name to stored documents. A
name that is absent denotes a collection that does not exist; `find` on
it returns no documents, as in MongoDB. -/
abbrev Store := List (String × List Doc)

/-- `collection.find()`: all documents of the named collection. -/
def Store.findColl (st : Store) (name : String) : List Doc :=
  (st.lookup name).getD []

/-- Write the named collection wholesale (the `$out` materialization of a
native run): replaces the collection's contents. -/
def Store.setColl : Store → String → List Doc → Store
  | [], name, docs => [(name, docs)]
  | (m, ds) :: rest, name, docs =>
      if m = name then (name, docs) :: rest
      else (m, ds) :: Store.setColl rest name docs

/-- `collection.drop()`: the collection ceases to exist. -/
def Store.dropColl : Store → String → Store
  | [], _ => []
  | (m, ds) :: rest, name =>
      if m = name then Store.dropColl rest name
      else (m, ds) :: Store.dropColl rest name

/-- Outcome of one `insert_many` call against the external store:
pymongo either writes the whole batch, or raises a `PyMongoError` (for
example a `BulkWriteError` on a duplicate `_id` in an ordered bulk
write) after having written only the first `k` documents of the batch.
Like the engine and the drop behaviour, this is the external
collaborator's choice and is a parameter of the embedding. -/
inductive InsertOutcome where
  | success : InsertOutcome
  | failAfter : Nat → String → InsertOutcome

/-- `collection.insert_many(docs)`: pymongo rejects an empty document
batch with an error before writing anything; otherwise the call either
appends the whole batch, or — at the external store's discretion
(`outcome`) — raises a `PyMongoError` after appending only the first `k`
documents: those already written stay (creating the collection), and
when nothing was written the collection is not created. Returns the
store after the call together with the raised error, if any. -/
def Store.insertMany (outcome : InsertOutcome) (st : Store) (name : String)
    (docs : List Doc) : Store × Option AggError :=
  if docs.isEmpty then (st, some .emptyInsert)
  else
    match outcome with
    | .success => (st.setColl name (st.findColl name ++ docs), none)
    | .failAfter k msg =>
        (if k = 0 then st else st.setColl name (st.findColl name ++ docs.take k),
         some (.pyMongoError msg))

/-- The MongoDB engine executing a native sub-pipeline: an external
collaborator, modelled as a parameter mapping the sub-pipeline and the
input documents to output documents or to a `PyMongoError` message. -/
abbrev NativeEval := List Stage → List Doc → Except String (List Doc)

/-- The mutable loop state of `aggregate`: the document store, the name
of the current working collection, the tracked `temp_collections` (in
creation order), and a counter indexing the uuid stream. -/
structure LoopState where
  store : Store
  current : String
  temps : List String
  counter : Nat

/-- `execute_sub_pipeline(collection, pipeline)`: draw a fresh temporary
collection name, submit the sub-pipeline with a trailing `$out` to the
engine (modelled by `nativeEval` computing the output documents and
`setColl` materializing them under the fresh name), and make the new
checkpoint current and tracked; an engine failure is re-raised and
nothing is tracked. -/
def execSub (nativeEval : NativeEval) (fresh : Nat → String) (sub : List Stage)
    (s : LoopState) : Except AggError LoopState :=
  let name := fresh s.counter
  match nativeEval sub (s.store.findColl s.current) with
  | .error msg => .error (.pyMongoError msg)
  | .ok outDocs =>
      .ok { store := s.store.setColl name outDocs, current := name,
            temps := s.temps ++ [name], counter := s.counter + 1 }

/-- The stage loop of `aggregate`: native stages accumulate into
`sub_pipeline`; a custom stage first flushes a non-empty `sub_pipeline`
to the engine, then fetches the current documents, processes them
locally, writes them to a fresh checkpoint (skipping the insert when
there are no documents) and tracks it. Returns the state reached and
`none` on success or `some e` for the first error raised. -/
def runStages (reg : Registry) (nativeEval : NativeEval) (fresh : Nat → String)
    (insF : Nat → InsertOutcome) :
    List Stage → List Stage → LoopState → LoopState × Option AggError
  | [], sub, s =>
      if sub.isEmpty then (s, none)
      else
        match execSub nativeEval fresh sub s with
        | .ok s1 => (s1, none)
        | .error e => (s, some e)
  | stage :: rest, sub, s =>
      if containsCustomOperator reg stage then
        match (if sub.isEmpty then .ok s else execSub nativeEval fresh sub s :
            Except AggError LoopState) with
        | .error e => (s, some e)
        | .ok s1 =>
            let documents := s1.store.findColl s1.current
            match processCustomStage reg documents stage with
            | .error e => (s1, some e)
            | .ok processed =>
                let name := fresh s1.counter
                if processed.isEmpty then
                  runStages reg nativeEval fresh insF rest []
                    { store := s1.store, current := name,
                      temps := s1.temps ++ [name], counter := s1.counter + 1 }
                else
                  match Store.insertMany (insF s1.counter) s1.store name
                      processed with
                  | (store1, some e) =>
                      ({ s1 with store := store1, counter := s1.counter + 1 },
                        some e)
                  | (store1, none) =>
                      runStages reg nativeEval fresh insF rest []
                        { store := store1, current := name,
                          temps := s1.temps ++ [name], counter := s1.counter + 1 }
      else runStages reg nativeEval fresh insF rest (sub ++ [stage]) s

/-- The `finally` block of `aggregate`: drop every tracked temporary
collection other than the original source collection; a failed drop
(`dropFails`) leaves the collection, records a warning and never
propagates. Returns the store after cleanup and the warnings logged. -/
def cleanup (dropFails : String → Bool) (src : String) :
    List String → Store → Store × List String
  | [], st => (st, [])
  | name :: rest, st =>
      if name = src then cleanup dropFails src rest st
      else if dropFails name then
        let (st1, ws) := cleanup dropFails src rest st
        (st1, ("Failed to drop temporary collection " ++ name) :: ws)
      else cleanup dropFails src rest (st.dropColl name)

/-- Everything observable about one `aggregate` call: the returned
document list or raised error, the store after cleanup, the tracked
checkpoint names in creation order, and the cleanup warnings. -/
structure AggOutcome where
  result : Except AggError (List Doc)
  store : Store
  temps : List String
  warnings : List String

/-- `aggregate(pipeline)`: run the stage loop starting from the source
collection, on success read the final working collection, and always run
the cleanup phase before surfacing the result or the error. -/
def aggregate (reg : Registry) (nativeEval : NativeEval) (fresh : Nat → String)
    (insF : Nat → InsertOutcome) (dropFails : String → Bool) (src : String)
    (store : Store) (pipeline : List Stage) : AggOutcome :=
  let init : LoopState := { store := store, current := src, temps := [], counter := 0 }
  let out := runStages reg nativeEval fresh insF pipeline [] init
  let result : Except AggError (List Doc) :=
    match out.2 with
    | none => .ok (out.1.store.findColl out.1.current)
    | some e => .error e
  let cl := cleanup dropFails src out.1.temps out.1.store
  { result := result, store := cl.1, temps := out.1.temps, warnings := cl.2 }

/-- Spec-side (written from the spec's words, for claim C3): key `k`
appears as a mapping key somewhere in the expression tree — as a key of
the tree itself when it is a document, of a nested document, or of a
document inside a list element, at any depth. -/
inductive KeyAnywhere : String → Value → Prop
  | topKey {k : String} {v : Value} {fields : List (String × Value)} :
      (k, v) ∈ fields → KeyAnywhere k (.doc fields)
  | inValue {k k' : String} {v : Value} {fields : List (String × Value)} :
      (k', v) ∈ fields → KeyAnywhere k v → KeyAnywhere k (.doc fields)
  | inItem {k : String} {x : Value} {xs : List Value} :
      x ∈ xs → KeyAnywhere k x → KeyAnywhere k (.list xs)

/-- Spec-side (written from the spec's words, for claim C8): the value
`w` is present at exactly the given path of segments: each segment in
turn is a key of the current (document) value. -/
inductive ResolvesPath : Value → List String → Value → Prop
  | nil (v : Value) : ResolvesPath v [] v
  | cons {fields : List (String × Value)} {f : String} {rest : List String}
      {w u : Value} : fields.lookup f = some w → ResolvesPath w rest u →
      ResolvesPath (.doc fields) (f :: rest) u

/-- Is an `Except` a success? -/
def exceptIsOk {ε α : Type} : Except ε α → Bool
  | .ok _ => true
  | .error _ => false

/-- One checkpoint per contiguous native run and one per custom stage
(the claim's counting of "mode switches"): walk the pipeline remembering
whether a native run is open; a custom stage closes an open run (counting
its checkpoint) and counts its own; an exhausted pipeline closes an open
run. -/
def switchesAux (reg : Registry) : Bool → List Stage → Nat
  | inRun, [] => if inRun then 1 else 0
  | inRun, stage :: rest =>
      if containsCustomOperator reg stage then
        (if inRun then 1 else 0) + 1 + switchesAux reg false rest
      else switchesAux reg true rest

/-- The number of mode switches of a pipeline (no run open initially). -/
def modeSwitches (reg : Registry) (pipeline : List Stage) : Nat :=
  switchesAux reg false pipeline

/-- The number of maximal contiguous runs of native stages: a native
stage opens a run unless one is open; a custom stage closes it. -/
def nativeRunsAux (reg : Registry) : Bool → List Stage → Nat
  | _, [] => 0
  | inRun, stage :: rest =>
      if containsCustomOperator reg stage then nativeRunsAux reg false rest
      else (if inRun then 0 else 1) + nativeRunsAux reg true rest

/-- The number of maximal contiguous native runs of a pipeline. -/
def nativeRunCount (reg : Registry) (pipeline : List Stage) : Nat :=
  nativeRunsAux reg false pipeline

/-- The number of custom stages of a pipeline. -/
def customStageCount (reg : Registry) (pipeline : List Stage) : Nat :=
  pipeline.countP (fun stage => containsCustomOperator reg stage)

/-- A resolvable path resolves to its value. -/
theorem walkPath_of_resolvesPath {v : Value} {segs : List String} {w : Value}
    (h : ResolvesPath v segs w) : walkPath v segs = w := by
  induction h with
  | nil v => simp [walkPath]
  | cons hlook _ ih => simp [walkPath, *]

/-- A path with no resolution walks to null. -/
theorem walkPath_null_of_not_resolvesPath {segs : List String} {v : Value}
    (h : ∀ w, ¬ ResolvesPath v segs w) : walkPath v segs = .null := by
  induction segs generalizing v with
  | nil => exact absurd (ResolvesPath.nil v) (h v)
  | cons f rest ih =>
      cases v with
      | doc fields =>
          cases hlook : fields.lookup f with
          | none => simp [walkPath, hlook]
          | some w =>
              have : walkPath w rest = .null := by
                refine ih (fun u hu => ?_)
                exact h u (ResolvesPath.cons hlook hu)
              simp [walkPath, hlook, this]
      | null => simp [walkPath]
      | bool b => simp [walkPath]
      | int n => simp [walkPath]
      | str s => simp [walkPath]
      | list xs => simp [walkPath]

/-- C8. `get_field_value` splits the path on `.` and walks segment by
segment; a value present at exactly that path is returned, and whenever
an intermediate value is not a document or a segment key is absent the
traversal yields null (the function is total, so it never raises). -/
theorem claim_C8_field_resolution :
    (∀ (doc : Doc) (path : String),
        getFieldValue doc path = walkPath (.doc doc) (splitDot path)) ∧
    (∀ (v : Value) (segs : List String) (w : Value),
        ResolvesPath v segs w → walkPath v segs = w) ∧
    (∀ (v : Value) (segs : List String),
        (∀ w, ¬ ResolvesPath v segs w) → walkPath v segs = .null) := by
  refine ⟨fun doc path => by simp [getFieldValue], fun v segs w h => walkPath_of_resolvesPath h,
    fun v segs h => walkPath_null_of_not_resolvesPath h⟩

/-- C8 witness: a present nested path `a.b` resolves to its value, and a
missing key walks to null, on concrete inputs. -/
theorem claim_C8_witness :
    getFieldValue [("a", .doc [("b", .int 2)])] "a.b" =
      walkPath (.doc [("a", .doc [("b", .int 2)])]) (splitDot "a.b") ∧
    walkPath (.doc [("a", .doc [("b", .int 2)])]) ["a", "b"] = .int 2 ∧
    walkPath (.doc []) ["z"] = .null := by
  refine ⟨claim_C8_field_resolution.1 _ _, claim_C8_field_resolution.2.1 _ _ _ ?_,
    claim_C8_field_resolution.2.2 _ _ ?_⟩
  · exact ResolvesPath.cons (by rfl) (ResolvesPath.cons (by rfl) (ResolvesPath.nil _))
  · intro w h
    cases h with
    | cons hlook _ => simp [List.lookup] at hlook

/-- C5. When `op` is a registered custom operator name, a single-key
expression `{op: arg}` evaluates to `handler(doc, arg)` with the argument
expression passed verbatim and unevaluated; the registry lookup is
checked before the `$`-prefix built-in dispatch, so this holds for every
`op`, in particular for names starting with `$`. -/
theorem claim_C5_custom_operator_dispatch (reg : Registry) (doc : Doc)
    (op : String) (arg : Value) (handler : Handler)
    (hlook : reg.lookup op = some handler) :
    processExpr reg (.doc [(op, arg)]) doc = handler doc arg := by
  simp [processExpr, hlook]

/-- A concrete custom handler for the C5 witness: returns the document
and the received argument expression unevaluated. -/
def witnessHandler : Handler := fun doc v => .ok (.list [.doc doc, v])

/-- C5 witness: with `$w` registered, `{$w: "$q"}` returns the handler's
result on the verbatim argument; the field reference `"$q"` reaches the
handler unevaluated. -/
theorem claim_C5_witness :
    processExpr [("$w", witnessHandler)] (.doc [("$w", .str "$q")]) [] =
      witnessHandler [] (.str "$q") :=
  claim_C5_custom_operator_dispatch [("$w", witnessHandler)] [] "$w" (.str "$q")
    witnessHandler rfl

/-- No key occurs in a value that is not a dict or list. -/
theorem keyAnywhere_not_container {k : String} {v : Value}
    (h : isContainer v = false) : ¬ KeyAnywhere k v := by
  intro hk
  cases hk <;> simp [isContainer] at h

/-- No key occurs in the empty dict. -/
theorem keyAnywhere_doc_nil {k : String} : ¬ KeyAnywhere k (.doc []) := by
  intro hk
  cases hk with
  | topKey hmem => simp at hmem
  | inValue hmem _ => simp at hmem

/-- No key occurs in the empty list. -/
theorem keyAnywhere_list_nil {k : String} : ¬ KeyAnywhere k (.list []) := by
  intro hk
  cases hk with
  | inItem hmem _ => simp at hmem

/-- Key occurrence in a non-empty dict: the head key, inside the head
value, or in the rest of the dict. -/
theorem keyAnywhere_doc_cons {k k0 : String} {v0 : Value}
    {rest : List (String × Value)} :
    KeyAnywhere k (.doc ((k0, v0) :: rest)) ↔
      k = k0 ∨ KeyAnywhere k v0 ∨ KeyAnywhere k (.doc rest) := by
  constructor
  · intro hk
    cases hk with
    | topKey hmem =>
        rcases List.mem_cons.mp hmem with h | h
        · left; exact (Prod.mk.injEq _ _ _ _ ▸ h : _ ∧ _).1
        · right; right; exact KeyAnywhere.topKey h
    | inValue hmem hin =>
        rcases List.mem_cons.mp hmem with h | h
        · right; left; exact ((Prod.mk.injEq _ _ _ _ ▸ h : _ ∧ _).2 ▸ hin)
        · right; right; exact KeyAnywhere.inValue h hin
  · intro hk
    rcases hk with h | h | h
    · exact h ▸ KeyAnywhere.topKey (List.mem_cons_self _ _)
    · exact KeyAnywhere.inValue (List.mem_cons_self _ _) h
    · cases h with
      | topKey hmem => exact KeyAnywhere.topKey (List.mem_cons_of_mem _ hmem)
      | inValue hmem hin => exact KeyAnywhere.inValue (List.mem_cons_of_mem _ hmem) hin

/-- Key occurrence in a non-empty list: in the head item or in the
rest. -/
theorem keyAnywhere_list_cons {k : String} {x : Value} {xs : List Value} :
    KeyAnywhere k (.list (x :: xs)) ↔
      KeyAnywhere k x ∨ KeyAnywhere k (.list xs) := by
  constructor
  · intro hk
    cases hk with
    | inItem hmem hin =>
        rcases List.mem_cons.mp hmem with h | h
        · left; exact h ▸ hin
        · right; exact KeyAnywhere.inItem h hin
  · intro hk
    rcases hk with h | h
    · exact KeyAnywhere.inItem (List.mem_cons_self _ _) h
    · cases h with
      | inItem hmem hin => exact KeyAnywhere.inItem (List.mem_cons_of_mem _ hmem) hin

/-- The detector is sound and complete on every value: it fires exactly
when some mapping key anywhere in the tree is a registered name. -/
theorem checkExpr_iff_keyAnywhere (reg : Registry) (v : Value) :
    checkExpr reg v = true ↔
      ∃ k, KeyAnywhere k v ∧ isRegistered reg k = true := by
  induction v using checkExpr.induct reg _
    (fun xs => checkItems reg xs = true ↔
      ∃ k, KeyAnywhere k (.list xs) ∧ isRegistered reg k = true)
    (fun fields => checkFields reg fields = true ↔
      ∃ k, KeyAnywhere k (.doc fields) ∧ isRegistered reg k = true) with
  | case1 fields ih => simpa [checkExpr] using ih
  | case2 xs ih => simpa [checkExpr] using ih
  | case3 t hdoc hlist =>
      have hc : isContainer t = false := by
        cases t with
        | doc fields => exact absurd rfl (hdoc fields)
        | list xs => exact absurd rfl (hlist xs)
        | null => rfl
        | bool b => rfl
        | int n => rfl
        | str s => rfl
      have hf : checkExpr reg t = false := by
        cases t with
        | doc fields => exact absurd rfl (hdoc fields)
        | list xs => exact absurd rfl (hlist xs)
        | null => simp [checkExpr]
        | bool b => simp [checkExpr]
        | int n => simp [checkExpr]
        | str s => simp [checkExpr]
      rw [hf]
      simp only [Bool.false_eq_true, false_iff]
      rintro ⟨k, hk, _⟩
      exact keyAnywhere_not_container hc hk
  | case4 =>
      have hf : checkItems reg [] = false := by simp [checkItems]
      rw [hf]
      simp only [Bool.false_eq_true, false_iff]
      rintro ⟨k, hk, _⟩
      exact keyAnywhere_list_nil hk
  | case5 item rest hitem ih =>
      constructor
      · intro _
        rcases ih.mp hitem with ⟨k, hk, hr⟩
        exact ⟨k, keyAnywhere_list_cons.mpr (Or.inl hk), hr⟩
      · intro _
        simp [checkItems, hitem]
  | case6 item rest hitem ih ihrest =>
      have h1 : checkItems reg (item :: rest) = checkItems reg rest := by
        simp [checkItems, hitem]
      rw [h1, ihrest]
      constructor
      · rintro ⟨k, hk, hr⟩
        exact ⟨k, keyAnywhere_list_cons.mpr (Or.inr hk), hr⟩
      · rintro ⟨k, hk, hr⟩
        rcases keyAnywhere_list_cons.mp hk with h | h
        · exact absurd (ih.mpr ⟨k, h, hr⟩) hitem
        · exact ⟨k, h, hr⟩
  | case7 =>
      have hf : checkFields reg [] = false := by simp [checkFields]
      rw [hf]
      simp only [Bool.false_eq_true, false_iff]
      rintro ⟨k, hk, _⟩
      exact keyAnywhere_doc_nil hk
  | case8 key value rest hreg =>
      constructor
      · intro _
        exact ⟨key, KeyAnywhere.topKey (List.mem_cons_self _ _), hreg⟩
      · intro _
        simp [checkFields, hreg]
  | case9 key value rest hreg hcont hval ih =>
      constructor
      · intro _
        rcases ih.mp hval with ⟨k, hk, hr⟩
        exact ⟨k, keyAnywhere_doc_cons.mpr (Or.inr (Or.inl hk)), hr⟩
      · intro _
        simp [checkFields, hreg, hcont, hval]
  | case10 key value rest hreg hcont hval ih ihrest =>
      have h1 : checkFields reg ((key, value) :: rest) = checkFields reg rest := by
        simp [checkFields, hreg, hcont, hval]
      rw [h1, ihrest]
      constructor
      · rintro ⟨k, hk, hr⟩
        exact ⟨k, keyAnywhere_doc_cons.mpr (Or.inr (Or.inr hk)), hr⟩
      · rintro ⟨k, hk, hr⟩
        rcases keyAnywhere_doc_cons.mp hk with h | h | h
        · subst h; exact absurd hr hreg
        · exact absurd (ih.mpr ⟨k, h, hr⟩) hval
        · exact ⟨k, h, hr⟩
  | case11 key value rest hreg hcont ihrest =>
      have h1 : checkFields reg ((key, value) :: rest) = checkFields reg rest := by
        simp [checkFields, hreg, hcont]
      rw [h1, ihrest]
      constructor
      · rintro ⟨k, hk, hr⟩
        exact ⟨k, keyAnywhere_doc_cons.mpr (Or.inr (Or.inr hk)), hr⟩
      · rintro ⟨k, hk, hr⟩
        rcases keyAnywhere_doc_cons.mp hk with h | h | h
        · subst h; exact absurd hr hreg
        · exact absurd h (keyAnywhere_not_container (by simpa using hcont))
        · exact ⟨k, h, hr⟩

/-- C3. `contains_custom_operator(stage)` is true iff some mapping key
anywhere in the stage's expression tree — including keys of nested
documents and of documents inside list elements, at any depth — is a
registered custom operator name, for every registry state. -/
theorem claim_C3_detector_correct (reg : Registry) (stage : Stage) :
    containsCustomOperator reg stage = true ↔
      ∃ k, KeyAnywhere k (.doc stage) ∧ isRegistered reg k = true := by
  simpa [containsCustomOperator] using checkExpr_iff_keyAnywhere reg (.doc stage)

/-- The inclusion marker is exactly integer 1 or `True`. -/
theorem isInclusionMarker_iff (v : Value) :
    isInclusionMarker v = true ↔ v = .int 1 ∨ v = .bool true := by
  cases v <;> simp [isInclusionMarker]

/-- The exclusion marker is exactly integer 0 or `False`. -/
theorem isExclusionMarker_iff (v : Value) :
    isExclusionMarker v = true ↔ v = .int 0 ∨ v = .bool false := by
  cases v <;> simp [isExclusionMarker]

/-- C2 counterexample. On the inclusion marker with the field absent from
the document, the Local Stage Executor does not omit the field: it
assigns null to it (`new_doc[key] = doc.get(key)`), so
`{$project: {x: 1}}` over the empty document produces `{x: null}`, not
the empty document the claim requires. -/
theorem claim_C2_counterexample :
    processCustomStage [] [[]] [("$project", .doc [("x", .int 1)])] =
      .ok [[("x", Value.null)]] ∧
    ([("x", Value.null)] : Doc) ≠ ([] : Doc) := by
  constructor
  · rfl
  · simp

/-- C2 (amended). For every field of a custom `$project`/`$addFields`
stage expression: the inclusion marker (integer 1 or true) assigns
`doc.get(key)` — the source value when present, null when absent (the
field is not omitted); the exclusion marker (integer 0 or false) omits
the field entirely; any other expression is evaluated and its result is
assigned, even when that result is null. -/
theorem claim_C2_project_fields (reg : Registry) (doc : Doc) (key : String)
    (value : Value) (rest : List (String × Value)) :
    (value = .int 1 ∨ value = .bool true →
      processDoc reg ((key, value) :: rest) doc =
        (processDoc reg rest doc).bind
          (fun r => .ok ((key, (doc.lookup key).getD .null) :: r))) ∧
    (value = .int 0 ∨ value = .bool false →
      processDoc reg ((key, value) :: rest) doc = processDoc reg rest doc) ∧
    (value ≠ .int 1 ∧ value ≠ .bool true ∧ value ≠ .int 0 ∧ value ≠ .bool false →
      processDoc reg ((key, value) :: rest) doc =
        (processExpr reg value doc).bind
          (fun v => (processDoc reg rest doc).bind
            (fun r => .ok ((key, v) :: r)))) := by
  refine ⟨fun h => ?_, fun h => ?_, fun h => ?_⟩
  · have h1 : isInclusionMarker value = true := (isInclusionMarker_iff value).mpr h
    simp [processDoc, h1]
    rfl
  · have h1 : isInclusionMarker value = false := by
      rcases h with h | h <;> subst h <;> rfl
    have h2 : isExclusionMarker value = true := (isExclusionMarker_iff value).mpr h
    simp [processDoc, h1, h2]
  · have h1 : isInclusionMarker value = false := by
      cases hval : isInclusionMarker value
      · rfl
      · rcases (isInclusionMarker_iff value).mp hval with h' | h' <;>
          simp [h'] at h
    have h2 : isExclusionMarker value = false := by
      cases hval : isExclusionMarker value
      · rfl
      · rcases (isExclusionMarker_iff value).mp hval with h' | h' <;>
          simp [h'] at h
    simp [processDoc, h1, h2]
    rfl

/-- C2 witness: concrete instances of the three branches — inclusion
copies the present source value, exclusion omits, and an expression is
evaluated with its (null) result assigned. -/
theorem claim_C2_witness :
    (Value.int 1 = Value.int 1 ∨ Value.int 1 = Value.bool true) ∧
    processDoc [] [("x", .int 1)] [("x", .str "v")] =
      (processDoc [] [] [("x", .str "v")]).bind
        (fun r => .ok (("x", (([("x", Value.str "v")] : Doc).lookup "x").getD .null) :: r)) ∧
    processDoc [] [("x", .int 0)] [("x", .str "v")] = processDoc [] [] [("x", .str "v")] ∧
    processDoc [] [("x", .null)] [("x", .str "v")] =
      (processExpr [] Value.null [("x", .str "v")]).bind
        (fun v => (processDoc [] [] [("x", .str "v")]).bind
          (fun r => .ok (("x", v) :: r))) := by
  refine ⟨Or.inl rfl, ?_, ?_, ?_⟩
  · exact (claim_C2_project_fields [] [("x", .str "v")] "x" (.int 1) []).1 (Or.inl rfl)
  · exact (claim_C2_project_fields [] [("x", .str "v")] "x" (.int 0) []).2.1 (Or.inl rfl)
  · exact (claim_C2_project_fields [] [("x", .str "v")] "x" .null []).2.2
      (by refine ⟨?_, ?_, ?_, ?_⟩ <;> intro h <;> exact Value.noConfusion h)

/-- C7 counterexample. `$strLenCP` on an argument that evaluates to a
(non-string) list does not fail: Python `len` accepts lists, so the empty
list yields 0; the code returns a value instead of raising as the claim
demands for every non-string. -/
theorem claim_C7_counterexample :
    evaluateOperator [] "$strLenCP" (.list []) [] = .ok (.int 0) ∧
    ∀ e : AggError,
      (Except.ok (Value.int 0) : Except AggError Value) ≠ .error e := by
  constructor
  · simp only [evaluateOperator, processExpr, processItems]
    rfl
  · intro e h
    exact Except.noConfusion h

/-- C7 (amended). `$strLenCP` applies Python `len` to the evaluated
argument: a string yields its code-point length, but a list yields its
item count and a document its key count; only values without a length —
null, a boolean or a number — raise an error (`TypeError`). -/
theorem claim_C7_strlencp (reg : Registry) (doc : Doc) (arg : Value)
    (v : Value) (h : processExpr reg arg doc = .ok v) :
    evaluateOperator reg "$strLenCP" arg doc =
      match v with
      | .str s => .ok (.int s.length)
      | .list xs => .ok (.int xs.length)
      | .doc fields => .ok (.int fields.length)
      | _ => .error .typeError := by
  simp only [evaluateOperator, h]
  cases v <;> rfl

/-- C7 witness: on the string literal `"ab"` the code-point length 2 is
returned. -/
theorem claim_C7_witness :
    evaluateOperator [] "$strLenCP" (.str "ab") [] = .ok (.int 2) :=
  claim_C7_strlencp [] [] (.str "ab") (.str "ab")
    (by simp only [processExpr]; rfl)

/-- Reduction of an `Except` bind on a success. -/
theorem exceptBind_ok {ε α β : Type} (a : α) (f : α → Except ε β) :
    (Except.ok a : Except ε α) >>= f = f a := rfl

/-- Reduction of an `Except` bind on an error. -/
theorem exceptBind_error {ε α β : Type} (e : ε) (f : α → Except ε β) :
    (Except.error e : Except ε α) >>= f = Except.error e := rfl

/-- For nonnegative bounds, the Python slice `xs[i : i+j]` is exactly the
interval `[i, i+j)` clipped to the sequence: drop `i`, take `j`. -/
theorem pySliceList_nonneg {α : Type} (xs : List α) (i j : Int)
    (hi : 0 ≤ i) (hj : 0 ≤ j) :
    pySliceList xs i (i + j) = (xs.drop i.toNat).take j.toNat := by
  unfold pySliceList pyNorm
  rw [if_neg (by omega), if_neg (by omega)]
  have h3 : (i + j).toNat = i.toNat + j.toNat := by omega
  rw [h3]
  rcases le_or_lt xs.length i.toNat with h | h
  · rw [min_eq_right h, min_eq_right (by omega)]
    rw [Nat.sub_self, List.take_zero]
    rw [List.drop_eq_nil_of_le h]
    simp
  · rw [min_eq_left (le_of_lt h)]
    rcases le_or_lt (i.toNat + j.toNat) xs.length with h2 | h2
    · rw [min_eq_left h2]
      congr 1
      omega
    · rw [min_eq_right (le_of_lt h2)]
      have hlen : (xs.drop i.toNat).length = xs.length - i.toNat := by simp
      rw [List.take_of_length_le (by omega), List.take_of_length_le (by omega)]

/-- `$substr` with a non-3-element evaluated argument list raises the
arity `ValueError` and never returns a value. -/
theorem substr_arity_error (reg : Registry) (doc : Doc) (arg : Value)
    (xs : List Value) (h : processExpr reg arg doc = .ok (.list xs))
    (hlen : xs.length ≠ 3) :
    evaluateOperator reg "$substr" arg doc =
      .error (.valueError "$substr requires three arguments") := by
  have hl : ((xs.length : Int) ≠ 3) := by exact_mod_cast hlen
  simp only [evaluateOperator, h, exceptBind_ok, pyLen]
  rw [if_pos hl]
  rw [if_neg (by decide), if_neg (by decide), if_neg (by decide), if_neg (by decide),
    if_pos trivial]

/-- `$substr` on a string with nonnegative start and length returns the
substring `[start, start+length)` clipped to the string's bounds. -/
theorem substr_slice (reg : Registry) (doc : Doc) (arg : Value)
    (s : String) (i j : Int)
    (h : processExpr reg arg doc = .ok (.list [.str s, .int i, .int j]))
    (hi : 0 ≤ i) (hj : 0 ≤ j) :
    evaluateOperator reg "$substr" arg doc =
      .ok (.str ⟨(s.data.drop i.toNat).take j.toNat⟩) := by
  simp only [evaluateOperator, h, exceptBind_ok, pyLen, pyIndex]
  rw [if_neg (by decide), if_neg (by decide), if_neg (by decide), if_neg (by decide),
    if_pos trivial, if_neg (by simp)]
  simp only [pySliceStr]
  rw [pySliceList_nonneg s.data i j hi hj]

/-- A benign registered custom operator used to make the scenario stage a
custom stage (the spec's failure scenario needs the `$project` stage to
run locally). -/
def handlerC6 : Handler := fun _ _ => .ok .null

/-- Registry of the `$substr` failure scenario. -/
def regC6 : Registry := [("$z", handlerC6)]

/-- The failure-scenario stage: a `$project` whose field `x` uses
`{$substr: ["$s", 0]}` (only two arguments) and whose field `y` uses the
registered custom operator. -/
def stageC6 : Stage :=
  [("$project", .doc [("x", .doc [("$substr", .list [.str "$s", .int 0])]),
                      ("y", .doc [("$z", .int 1)])])]

/-- Source store of the failure scenario: one document in collection
`c`. -/
def storeC6 : Store := [("c", [[("s", .str "hello")]])]

/-- The stage expression's `$substr` argument evaluates to a two-element
list. -/
theorem processExpr_C6_args :
    processExpr regC6 (.list [.str "$s", .int 0]) [("s", .str "hello")] =
      .ok (.list [.str "hello", .int 0]) := by
  simp only [processExpr, processItems]
  rfl

/-- The scenario's `$substr` call raises the arity error. -/
theorem evaluateOperator_C6 :
    evaluateOperator regC6 "$substr" (.list [.str "$s", .int 0])
      [("s", .str "hello")] =
      .error (.valueError "$substr requires three arguments") :=
  substr_arity_error regC6 [("s", .str "hello")] (.list [.str "$s", .int 0])
    [.str "hello", .int 0] processExpr_C6_args (by decide)

/-- Evaluating the scenario's field `x` expression raises the arity
error. -/
theorem processExpr_C6_x :
    processExpr regC6 (.doc [("$substr", .list [.str "$s", .int 0])])
      [("s", .str "hello")] =
      .error (.valueError "$substr requires three arguments") := by
  simp only [processExpr, show List.lookup "$substr" regC6 = none from rfl,
    show startsWithDollar "$substr" = true from rfl, if_true, evaluateOperator_C6]

/-- Processing the scenario document through the stage raises the arity
error. -/
theorem processDoc_C6 :
    processDoc regC6
      [("x", .doc [("$substr", .list [.str "$s", .int 0])]),
       ("y", .doc [("$z", .int 1)])] [("s", .str "hello")] =
      .error (.valueError "$substr requires three arguments") := by
  simp only [processDoc, isInclusionMarker, isExclusionMarker,
    processExpr_C6_x, exceptBind_error]
  rfl

/-- The scenario's custom stage processing raises the arity error. -/
theorem processCustomStage_C6 :
    processCustomStage regC6 [[("s", .str "hello")]] stageC6 =
      .error (.valueError "$substr requires three arguments") := by
  simp only [processCustomStage, stageC6, List.mapM, List.mapM.loop,
    processDoc_C6, exceptBind_error]
  rfl

/-- The scenario stage is detected as a custom stage. -/
theorem containsCustomOperator_C6 :
    containsCustomOperator regC6 stageC6 = true := rfl

/-- C6 counterexample. With a negative length, Python slicing counts from
the end of the string instead of clipping the interval to the bounds:
`$substr` on `("abcdef", 0, -2)` returns `"abcd"`, while the interval
`[0, 0 + (-2))` is empty, so the claim's "clipped substring" reading
(which would give `""`) is false on the code. -/
theorem claim_C6_counterexample :
    evaluateOperator [] "$substr" (.list [.str "abcdef", .int 0, .int (-2)]) []
      = .ok (.str "abcd") ∧ ("abcd" : String) ≠ "" := by
  constructor
  · simp only [evaluateOperator, processExpr, processItems]
    rfl
  · decide

/-- C6 (amended). `$substr` with an evaluated argument list of any arity
other than 3 raises the arity `ValueError` (the spec's
`OperatorArgumentError`) and never returns a value; with exactly three
arguments — a string and nonnegative start and length — it returns the
substring `[start, start+length)` clipped to the string's bounds
(negative values instead follow Python slice semantics, counting from the
end of the string); and in the spec's failure scenario the whole
`aggregate` call raises the arity error, the store is unchanged and no
checkpoint was created, so none remains. -/
theorem claim_C6_substr_arity :
    (∀ (reg : Registry) (doc : Doc) (arg : Value) (xs : List Value),
      processExpr reg arg doc = .ok (.list xs) → xs.length ≠ 3 →
      evaluateOperator reg "$substr" arg doc =
        .error (.valueError "$substr requires three arguments")) ∧
    (∀ (reg : Registry) (doc : Doc) (arg : Value) (s : String) (i j : Int),
      processExpr reg arg doc = .ok (.list [.str s, .int i, .int j]) →
      0 ≤ i → 0 ≤ j →
      evaluateOperator reg "$substr" arg doc =
        .ok (.str ⟨(s.data.drop i.toNat).take j.toNat⟩)) ∧
    aggregate regC6 (fun _ _ => .ok []) (fun _ => "tmp") (fun _ => .success)
        (fun _ => false) "c" storeC6 [stageC6] =
      { result := .error (.valueError "$substr requires three arguments"),
        store := storeC6, temps := [], warnings := [] } := by
  refine ⟨substr_arity_error, substr_slice, ?_⟩
  have hrun : runStages regC6 (fun _ _ => .ok []) (fun _ => "tmp")
      (fun _ => .success) [stageC6] []
      { store := storeC6, current := "c", temps := [], counter := 0 } =
      ({ store := storeC6, current := "c", temps := [], counter := 0 },
        some (.valueError "$substr requires three arguments")) := by
    simp only [runStages, containsCustomOperator_C6, if_true, List.isEmpty_nil,
      show Store.findColl storeC6 "c" = [[("s", .str "hello")]] from rfl,
      processCustomStage_C6]
  simp only [aggregate, hrun, cleanup]

/-- C6 witness: a two-argument `$substr` raises the arity error, and a
three-argument one returns the clipped substring, on concrete inputs. -/
theorem claim_C6_witness :
    evaluateOperator [] "$substr" (.list [.str "ab", .int 0]) [] =
      .error (.valueError "$substr requires three arguments") ∧
    evaluateOperator [] "$substr" (.list [.str "abcdef", .int 0, .int 2]) [] =
      .ok (.str "ab") := by
  constructor
  · exact claim_C6_substr_arity.1 [] [] (.list [.str "ab", .int 0])
      [.str "ab", .int 0] (by simp only [processExpr, processItems]; rfl)
      (by decide)
  · exact claim_C6_substr_arity.2.1 [] [] (.list [.str "abcdef", .int 0, .int 2])
      "abcdef" 0 2 (by simp only [processExpr, processItems]; rfl)
      (by decide) (by decide)

/-- C9. The empty pipeline: `aggregate` returns exactly the source
collection's documents in find order, creates no checkpoint, changes no
collection, and logs no warning. -/
theorem claim_C9_empty_pipeline (reg : Registry) (nativeEval : NativeEval)
    (fresh : Nat → String) (insF : Nat → InsertOutcome)
    (dropFails : String → Bool) (src : String) (store : Store) :
    aggregate reg nativeEval fresh insF dropFails src store [] =
      { result := .ok (store.findColl src), store := store, temps := [],
        warnings := [] } := by
  simp only [aggregate, runStages, List.isEmpty_nil, if_true, cleanup]

/-- A successful association-list lookup comes from a member entry. -/
theorem mem_of_lookup_eq_some {α β : Type} [BEq α] [LawfulBEq α]
    {l : List (α × β)} {a : α} {b : β} (h : l.lookup a = some b) :
    (a, b) ∈ l := by
  induction l with
  | nil => simp [List.lookup] at h
  | cons p rest ih =>
      obtain ⟨k, v⟩ := p
      by_cases hk : a == k
      · have hak : a = k := eq_of_beq hk
        simp [List.lookup, hk] at h
        subst hak h
        exact List.mem_cons_self _ _
      · have hk2 : (a == k) = false := by simpa using hk
        simp only [List.lookup, hk2] at h
        exact List.mem_cons_of_mem _ (ih h)

/-- A registry none of whose handlers ever raises the (internal)
empty-batch insertion error; every real Python handler is of this kind,
since the error belongs to the store's `insert_many`. -/
def CleanRegistry (reg : Registry) : Prop :=
  ∀ p ∈ reg, ∀ (d : Doc) (v : Value), p.2 d v ≠ Except.error AggError.emptyInsert

/-- Binds preserve not-being-the-empty-insert error. -/
theorem bind_ne_emptyInsert {α β : Type} {x : Except AggError α}
    {f : α → Except AggError β} (hx : x ≠ .error .emptyInsert)
    (hf : ∀ a, f a ≠ .error .emptyInsert) : x >>= f ≠ .error .emptyInsert := by
  cases x with
  | ok a => exact hf a
  | error e => simpa [exceptBind_error] using hx

/-- Unfolding of `process_expr` on a dict that is not single-key. -/
theorem processExpr_doc_not_singleton (reg : Registry)
    (fields : List (String × Value)) (doc : Doc)
    (h : ∀ key value, fields ≠ [(key, value)]) :
    processExpr reg (.doc fields) doc =
      processFields reg fields doc >>= fun rs => .ok (.doc rs) := by
  cases fields with
  | nil => simp [processExpr]
  | cons p rest =>
      cases rest with
      | nil => obtain ⟨k, v⟩ := p; exact absurd rfl (h k v)
      | cons q rest2 => simp [processExpr]

/-- With a clean registry, the Expression Evaluator (and its helpers)
never raises the store's empty-batch insertion error: the only code that
can raise it is `insert_many`. -/
theorem processExpr_ne_emptyInsert (reg : Registry) (hreg : CleanRegistry reg)
    (expr : Value) (doc : Doc) :
    processExpr reg expr doc ≠ .error .emptyInsert := by
  induction expr, doc using processExpr.induct reg _
    (fun xs doc => processItems reg xs doc ≠ .error .emptyInsert)
    (fun fields doc => processFields reg fields doc ≠ .error .emptyInsert)
    (fun op value doc =>
      evaluateOperator reg op value doc ≠ .error .emptyInsert) with
  | case1 doc key value handler hlook =>
      have hm := mem_of_lookup_eq_some hlook
      have hh := hreg (key, handler) hm doc value
      simpa [processExpr, hlook] using hh
  | case2 doc key value hlook hdollar ih =>
      simpa [processExpr, hlook, hdollar] using ih
  | case3 doc key value hlook hdollar ih =>
      simp only [processExpr, hlook]
      rw [if_neg hdollar]
      exact bind_ne_emptyInsert ih (fun a => by simp)
  | case4 doc fields hns ih =>
      rw [processExpr_doc_not_singleton reg fields doc
        (fun k v hkv => hns k v hkv)]
      exact bind_ne_emptyInsert ih (fun a => by simp)
  | case5 doc xs ih =>
      simp only [processExpr]
      exact bind_ne_emptyInsert ih (fun a => by simp)
  | case6 doc s hdollar => simp [processExpr, hdollar]
  | case7 doc s hdollar => simp [processExpr, hdollar]
  | case8 doc v h1 h2 h3 h4 =>
      cases v with
      | null => simp [processExpr]
      | bool b => simp [processExpr]
      | int n => simp [processExpr]
      | str s => exact absurd rfl (h4 s)
      | list xs => exact absurd rfl (h3 xs)
      | doc fields => exact absurd rfl (h2 fields)
  | case9 doc => simp [processItems]
  | case10 doc item rest ih ihrest =>
      simp only [processItems]
      exact bind_ne_emptyInsert ih
        (fun a => bind_ne_emptyInsert ihrest (fun b => by simp))
  | case11 doc => simp [processFields]
  | case12 doc key value rest ih ihrest =>
      simp only [processFields]
      exact bind_ne_emptyInsert ih
        (fun a => bind_ne_emptyInsert ihrest (fun b => by simp))
  | case13 value doc ih =>
      simp only [evaluateOperator, if_true]
      exact bind_ne_emptyInsert ih (fun parts => by cases parts <;> simp)
  | case14 value doc h1 ih =>
      simp only [evaluateOperator, if_true]
      rw [if_neg h1]
      refine bind_ne_emptyInsert ih (fun v => ?_)
      cases hl : pyLen v <;> simp [hl]
  | case15 value doc h1 h2 ih =>
      simp only [evaluateOperator, if_true]
      rw [if_neg h1, if_neg h2]
      exact bind_ne_emptyInsert ih (fun v => by simp)
  | case16 value doc h1 h2 h3 ih =>
      simp only [evaluateOperator, if_true]
      rw [if_neg h1, if_neg h2, if_neg h3]
      exact bind_ne_emptyInsert ih (fun v => by simp)
  | case17 value doc h1 h2 h3 h4 ih =>
      simp only [evaluateOperator, if_true]
      rw [if_neg h1, if_neg h2, if_neg h3, if_neg h4]
      refine bind_ne_emptyInsert ih (fun args => ?_)
      cases hl : pyLen args <;> simp only [hl]
      · simp
      · split
        · simp
        · split <;> try simp
          split <;> try simp
          split <;> simp
  | case18 operator value doc h1 h2 h3 h4 h5 =>
      simp only [evaluateOperator]
      rw [if_neg h1, if_neg h2, if_neg h3, if_neg h4, if_neg h5]
      simp

/-- With a clean registry, local stage document processing never raises
the empty-batch insertion error. -/
theorem processDoc_ne_emptyInsert (reg : Registry) (hreg : CleanRegistry reg)
    (fields : List (String × Value)) (doc : Doc) :
    processDoc reg fields doc ≠ .error .emptyInsert := by
  induction fields with
  | nil => simp [processDoc]
  | cons p rest ih =>
      obtain ⟨key, value⟩ := p
      simp only [processDoc]
      split
      · exact bind_ne_emptyInsert ih (fun a => by simp)
      · split
        · exact ih
        · exact bind_ne_emptyInsert
            (processExpr_ne_emptyInsert reg hreg value doc)
            (fun a => bind_ne_emptyInsert ih (fun b => by simp))

/-- With a clean registry, mapping document processing over a batch
never raises the empty-batch insertion error. -/
theorem mapM_processDoc_ne_emptyInsert (reg : Registry)
    (hreg : CleanRegistry reg) (fields : List (String × Value)) :
    ∀ documents : List Doc,
      documents.mapM (fun d => processDoc reg fields d) ≠
        .error .emptyInsert := by
  intro documents
  induction documents with
  | nil => rw [List.mapM_nil]; exact fun h => Except.noConfusion h
  | cons d ds ihd =>
      rw [List.mapM_cons]
      exact bind_ne_emptyInsert (processDoc_ne_emptyInsert reg hreg fields d)
        (fun a => bind_ne_emptyInsert ihd
          (fun b => fun h => Except.noConfusion h))

/-- With a clean registry, `process_custom_stage` never raises the
empty-batch insertion error. -/
theorem processCustomStage_ne_emptyInsert (reg : Registry)
    (hreg : CleanRegistry reg) (documents : List Doc) (stage : Stage) :
    processCustomStage reg documents stage ≠ .error .emptyInsert := by
  cases stage with
  | nil => simp [processCustomStage]
  | cons p rest =>
      obtain ⟨op, expr⟩ := p
      simp only [processCustomStage]
      split
      · cases expr with
        | doc fields => exact mapM_processDoc_ne_emptyInsert reg hreg fields documents
        | null => simp
        | bool b => simp
        | int n => simp
        | str s => simp
        | list xs => simp
      · simp

/-- A failed native delegation is always an engine (`PyMongoError`)
failure. -/
theorem execSub_error_pyMongo (nativeEval : NativeEval) (fresh : Nat → String)
    (sub : List Stage) (s : LoopState) (e : AggError)
    (h : execSub nativeEval fresh sub s = .error e) :
    ∃ msg, e = .pyMongoError msg := by
  unfold execSub at h
  cases hne : nativeEval sub (s.store.findColl s.current) with
  | error msg =>
      rw [hne] at h
      exact ⟨msg, by injection h with h1; exact h1.symm⟩
  | ok outDocs =>
      rw [hne] at h
      exact absurd h (by simp)

/-- A raised non-empty-batch insert is always a `PyMongoError`. -/
theorem insertMany_error_pyMongo (outcome : InsertOutcome) (st : Store)
    (name : String) (docs : List Doc) (store1 : Store) (e : AggError)
    (h : Store.insertMany outcome st name docs = (store1, some e))
    (hne : docs.isEmpty = false) : ∃ msg, e = .pyMongoError msg := by
  unfold Store.insertMany at h
  simp only [hne, Bool.false_eq_true, if_false] at h
  cases outcome with
  | success =>
      injection h with h1 h2
      exact absurd h2 (by simp)
  | failAfter k msg =>
      injection h with h1 h2
      injection h2 with h3
      exact ⟨msg, h3.symm⟩

/-- With a clean registry, the stage loop never surfaces the empty-batch
insertion error: the only call site of `insert_many` is guarded by the
emptiness check. -/
theorem runStages_ne_emptyInsert (reg : Registry) (hreg : CleanRegistry reg)
    (nativeEval : NativeEval) (fresh : Nat → String)
    (insF : Nat → InsertOutcome) :
    ∀ (pipeline sub : List Stage) (s : LoopState),
      (runStages reg nativeEval fresh insF pipeline sub s).2 ≠
        some AggError.emptyInsert := by
  intro pipeline
  induction pipeline with
  | nil =>
      intro sub s
      simp only [runStages]
      split
      · simp
      · cases hex : execSub nativeEval fresh sub s with
        | ok s1 => simp [hex]
        | error e =>
            simp only [hex]
            obtain ⟨msg, hmsg⟩ := execSub_error_pyMongo _ _ _ _ _ hex
            simp [hmsg]
  | cons stage rest ih =>
      intro sub s
      simp only [runStages]
      by_cases hc : containsCustomOperator reg stage = true
      · rw [if_pos hc]
        cases hflush : (if sub.isEmpty then Except.ok s
            else execSub nativeEval fresh sub s : Except AggError LoopState) with
        | error e =>
            simp only [hflush]
            cases hsub : sub.isEmpty with
            | true => rw [hsub] at hflush; simp at hflush
            | false =>
                rw [hsub] at hflush
                simp only [Bool.false_eq_true, if_false] at hflush
                obtain ⟨msg, hmsg⟩ := execSub_error_pyMongo _ _ _ _ _ hflush
                simp [hmsg]
        | ok s1 =>
            simp only [hflush]
            cases hproc : processCustomStage reg
                (s1.store.findColl s1.current) stage with
            | error e =>
                simp only [hproc]
                intro hcontra
                simp only [Option.some.injEq] at hcontra
                rw [hcontra] at hproc
                exact processCustomStage_ne_emptyInsert reg hreg _ _ hproc
            | ok processed =>
                simp only [hproc]
                by_cases hemp : processed.isEmpty
                · rw [if_pos hemp]
                  exact ih [] _
                · rw [if_neg hemp]
                  cases hins : Store.insertMany (insF s1.counter) s1.store
                      (fresh s1.counter) processed with
                  | mk store1 err =>
                      cases err with
                      | none => simp only [hins]; exact ih [] _
                      | some e =>
                          simp only [hins]
                          obtain ⟨msg, hmsg⟩ := insertMany_error_pyMongo
                            _ _ _ _ _ _ hins (by simpa using hemp)
                          simp [hmsg]
      · rw [if_neg hc]
        exact ih (sub ++ [stage]) s

/-- A benign registered custom operator for the zero-document scenario. -/
def handlerC10 : Handler := fun _ _ => .ok .null

/-- Registry of the zero-document scenario. -/
def regC10 : Registry := [("$k", handlerC10)]

/-- A custom `$addFields` stage (its expression uses the registered
`$k`). -/
def stageC10 : Stage := [("$addFields", .doc [("y", .doc [("$k", .int 7)])])]

/-- Source store of the zero-document scenario: collection `c` exists and
is empty. -/
def storeC10 : Store := [("c", [])]

/-- A two-name uuid stream for the zero-document scenario. -/
def freshC10 : Nat → String := fun n => if n == 0 then "t0" else "t1"

/-- C10. The insert into a new checkpoint is guarded by the emptiness
check, so `aggregate` never surfaces the store's empty-batch insertion
error (for any registry whose handlers do not themselves fabricate that
internal error); concretely, a pipeline of two custom stages over an
empty source collection succeeds with the empty result after processing
both stages (two checkpoints tracked), leaving the store unchanged. -/
theorem claim_C10_empty_batch_guard :
    (∀ (reg : Registry) (nativeEval : NativeEval) (fresh : Nat → String)
        (insF : Nat → InsertOutcome) (dropFails : String → Bool) (src : String)
        (store : Store) (pipeline : List Stage), CleanRegistry reg →
        (aggregate reg nativeEval fresh insF dropFails src store
          pipeline).result ≠ .error .emptyInsert) ∧
    aggregate regC10 (fun _ _ => .ok []) freshC10 (fun _ => .success)
        (fun _ => false) "c" storeC10 [stageC10, stageC10] =
      { result := .ok [], store := storeC10, temps := ["t0", "t1"],
        warnings := [] } := by
  constructor
  · intro reg nativeEval fresh insF dropFails src store pipeline hreg
    have h2 := runStages_ne_emptyInsert reg hreg nativeEval fresh insF
      pipeline [] { store := store, current := src, temps := [], counter := 0 }
    simp only [aggregate]
    cases hrs : runStages reg nativeEval fresh insF pipeline []
        { store := store, current := src, temps := [], counter := 0 } with
    | mk s err =>
        rw [hrs] at h2
        simp only [hrs]
        cases err with
        | none => simp
        | some e =>
            simp only []
            intro hcontra
            simp only [Except.error.injEq] at hcontra
            rw [hcontra] at h2
            exact h2 rfl
  · rfl

/-- C10 witness: the concrete two-custom-stage run over the empty source
collection does not surface the empty-batch insertion error. -/
theorem claim_C10_witness :
    (aggregate regC10 (fun _ _ => .ok []) freshC10 (fun _ => .success)
        (fun _ => false) "c" storeC10 [stageC10, stageC10]).result ≠
      .error .emptyInsert :=
  claim_C10_empty_batch_guard.1 regC10 (fun _ _ => .ok []) freshC10
    (fun _ => .success) (fun _ => false) "c" storeC10 [stageC10, stageC10]
    (by
      intro p hp d v
      have hp2 : p = ("$k", handlerC10) := List.mem_singleton.mp hp
      subst hp2
      exact fun h => Except.noConfusion h)

/-- Lookup after a wholesale collection write. -/
theorem lookup_setColl (st : Store) (n m : String) (ds : List Doc) :
    (st.setColl n ds).lookup m = if m = n then some ds else st.lookup m := by
  induction st with
  | nil =>
      simp only [Store.setColl, List.lookup]
      by_cases h : m = n
      · simp [h]
      · simp [h, beq_false_of_ne h, List.lookup]
  | cons p rest ih =>
      obtain ⟨k, es⟩ := p
      simp only [Store.setColl]
      by_cases hk : k = n
      · rw [if_pos hk]
        by_cases hm : m = n
        · simp [List.lookup, hm, beq_self_eq_true]
        · simp [List.lookup, hm, beq_false_of_ne hm, hk ▸ beq_false_of_ne hm]
      · rw [if_neg hk]
        by_cases hmk : m = k
        · have hmn : ¬ m = n := by rw [hmk]; exact hk
          simp [List.lookup, hmk, hmn, hk]
        · simp [List.lookup, beq_false_of_ne hmk, ih]

/-- Lookup after dropping a collection. -/
theorem lookup_dropColl (st : Store) (n m : String) :
    (st.dropColl n).lookup m = if m = n then none else st.lookup m := by
  induction st with
  | nil =>
      simp only [Store.dropColl, List.lookup]
      by_cases h : m = n <;> simp [h]
  | cons p rest ih =>
      obtain ⟨k, es⟩ := p
      simp only [Store.dropColl]
      by_cases hk : k = n
      · rw [if_pos hk]
        rw [ih]
        by_cases hm : m = n
        · simp [hm]
        · have hmk : ¬ m = k := by rw [hk]; exact hm
          simp [hm, List.lookup, beq_false_of_ne hmk]
      · rw [if_neg hk]
        by_cases hmk : m = k
        · have hmn : ¬ m = n := by rw [hmk]; exact hk
          simp [List.lookup, hmk, hmn, hk]
        · simp [List.lookup, beq_false_of_ne hmk, ih]

/-- Cleanup never resurrects a collection: an absent name stays absent. -/
theorem cleanup_preserves_none (dropFails : String → Bool) (src : String) :
    ∀ (temps : List String) (st : Store) (name : String),
      st.lookup name = none →
      ((cleanup dropFails src temps st).1).lookup name = none := by
  intro temps
  induction temps with
  | nil => intro st name h; simpa [cleanup] using h
  | cons t rest ih =>
      intro st name h
      simp only [cleanup]
      by_cases ht : t = src
      · rw [if_pos ht]; exact ih st name h
      · rw [if_neg ht]
        by_cases hd : dropFails t
        · simp only [hd, if_true]
          exact ih st name h
        · simp only [hd, Bool.false_eq_true, if_false]
          refine ih _ name ?_
          rw [lookup_dropColl]
          by_cases hnt : name = t <;> simp [hnt, h]

/-- With drops succeeding, cleanup actually removes every tracked
checkpoint other than the source collection. -/
theorem cleanup_false_lookup (src : String) :
    ∀ (temps : List String) (st : Store) (name : String),
      name ∈ temps → name ≠ src →
      ((cleanup (fun _ => false) src temps st).1).lookup name = none := by
  intro temps
  induction temps with
  | nil => intro st name h; simp at h
  | cons t rest ih =>
      intro st name hmem hns
      simp only [cleanup]
      by_cases ht : t = src
      · rw [if_pos ht]
        rcases List.mem_cons.mp hmem with h | h
        · exact absurd (h.trans ht) hns
        · exact ih st name h hns
      · rw [if_neg ht]
        simp only [Bool.false_eq_true, if_false]
        rcases List.mem_cons.mp hmem with h | h
        · refine cleanup_preserves_none _ src rest _ name ?_
          rw [lookup_dropColl, if_pos h]
        · exact ih _ name h hns

/-- Cleanup never touches the source collection. -/
theorem cleanup_lookup_src (dropFails : String → Bool) (src : String) :
    ∀ (temps : List String) (st : Store),
      ((cleanup dropFails src temps st).1).lookup src = st.lookup src := by
  intro temps
  induction temps with
  | nil => intro st; simp [cleanup]
  | cons t rest ih =>
      intro st
      simp only [cleanup]
      by_cases ht : t = src
      · rw [if_pos ht]; exact ih st
      · rw [if_neg ht]
        by_cases hd : dropFails t
        · simp only [hd, if_true]; exact ih st
        · simp only [hd, Bool.false_eq_true, if_false]
          rw [ih, lookup_dropColl, if_neg (fun h => ht h.symm)]

/-- A failed drop of a tracked checkpoint is recorded as a warning. -/
theorem cleanup_warns (dropFails : String → Bool) (src : String) :
    ∀ (temps : List String) (st : Store) (name : String),
      name ∈ temps → name ≠ src → dropFails name = true →
      ("Failed to drop temporary collection " ++ name) ∈
        (cleanup dropFails src temps st).2 := by
  intro temps
  induction temps with
  | nil => intro st name h; simp at h
  | cons t rest ih =>
      intro st name hmem hns hd
      simp only [cleanup]
      by_cases ht : t = src
      · rw [if_pos ht]
        rcases List.mem_cons.mp hmem with h | h
        · exact absurd (h.trans ht) hns
        · exact ih st name h hns hd
      · rw [if_neg ht]
        rcases List.mem_cons.mp hmem with h | h
        · subst h
          simp only [hd, if_true]
          exact List.mem_cons_self _ _
        · by_cases hdt : dropFails t
          · simp only [hdt, if_true]
            exact List.mem_cons_of_mem _ (ih st name h hns hd)
          · simp only [hdt, Bool.false_eq_true, if_false]
            exact ih _ name h hns hd

/-- Shape of a successful native delegation: one fresh checkpoint is
written, made current, and tracked; the counter advances. -/
theorem execSub_ok_state (nativeEval : NativeEval) (fresh : Nat → String)
    (sub : List Stage) (s s1 : LoopState)
    (h : execSub nativeEval fresh sub s = .ok s1) :
    ∃ outDocs, s1 =
      { store := s.store.setColl (fresh s.counter) outDocs,
        current := fresh s.counter,
        temps := s.temps ++ [fresh s.counter], counter := s.counter + 1 } := by
  unfold execSub at h
  cases hne : nativeEval sub (s.store.findColl s.current) with
  | error msg => rw [hne] at h; exact absurd h (by simp)
  | ok outDocs =>
      rw [hne] at h
      refine ⟨outDocs, ?_⟩
      injection h with h1
      exact h1.symm

/-- Shape of a successful checkpoint write: the whole batch appended. -/
theorem insertMany_none_store (outcome : InsertOutcome) (st : Store)
    (name : String) (docs : List Doc) (store1 : Store)
    (h : Store.insertMany outcome st name docs = (store1, none)) :
    store1 = st.setColl name (st.findColl name ++ docs) := by
  unfold Store.insertMany at h
  by_cases he : docs.isEmpty
  · rw [if_pos he] at h
    injection h with h1 h2
    exact absurd h2 (by simp)
  · rw [if_neg he] at h
    cases outcome with
    | success => injection h with h1 h2; exact h1.symm
    | failAfter k msg =>
        injection h with h1 h2
        exact absurd h2 (by simp)

/-- `insert_many` touches only the named collection, also when it fails
after a partial write. -/
theorem insertMany_lookup_other (outcome : InsertOutcome) (st : Store)
    (name : String) (docs : List Doc) (m : String) (hm : ¬ m = name) :
    ((Store.insertMany outcome st name docs).1).lookup m = st.lookup m := by
  unfold Store.insertMany
  by_cases he : docs.isEmpty
  · rw [if_pos he]
  · rw [if_neg he]
    cases outcome with
    | success =>
        dsimp only
        rw [lookup_setColl, if_neg hm]
    | failAfter k msg =>
        dsimp only
        by_cases hk : k = 0
        · rw [if_pos hk]
        · rw [if_neg hk]
          rw [lookup_setColl, if_neg hm]

/-- The stage loop writes only to freshly drawn checkpoint names: the
source collection's entry is untouched on every path. -/
theorem runStages_lookup_src (reg : Registry) (nativeEval : NativeEval)
    (fresh : Nat → String) (insF : Nat → InsertOutcome) (src : String)
    (hfresh : ∀ n, fresh n ≠ src) :
    ∀ (pipeline sub : List Stage) (s : LoopState),
      ((runStages reg nativeEval fresh insF pipeline sub s).1).store.lookup src
        = s.store.lookup src := by
  intro pipeline
  induction pipeline with
  | nil =>
      intro sub s
      simp only [runStages]
      split
      · rfl
      · cases hex : execSub nativeEval fresh sub s with
        | error e => simp [hex]
        | ok s1 =>
            simp only [hex]
            obtain ⟨outDocs, hs1⟩ := execSub_ok_state _ _ _ _ _ hex
            subst hs1
            dsimp only
            rw [lookup_setColl, if_neg (show ¬ src = fresh s.counter from
              fun hh => hfresh s.counter hh.symm)]
  | cons stage rest ih =>
      intro sub s
      simp only [runStages]
      by_cases hc : containsCustomOperator reg stage = true
      · rw [if_pos hc]
        cases hflush : (if sub.isEmpty then Except.ok s
            else execSub nativeEval fresh sub s : Except AggError LoopState) with
        | error e => simp [hflush]
        | ok s1 =>
            simp only [hflush]
            have hs1 : s1.store.lookup src = s.store.lookup src := by
              by_cases hsub : sub.isEmpty
              · rw [if_pos hsub] at hflush
                injection hflush with h1
                rw [h1]
              · rw [if_neg hsub] at hflush
                obtain ⟨outDocs, hs1⟩ := execSub_ok_state _ _ _ _ _ hflush
                subst hs1
                dsimp only
                rw [lookup_setColl, if_neg (show ¬ src = fresh s.counter from
                  fun hh => hfresh s.counter hh.symm)]
            cases hproc : processCustomStage reg
                (s1.store.findColl s1.current) stage with
            | error e => simp only [hproc]; exact hs1
            | ok processed =>
                simp only [hproc]
                by_cases hemp : processed.isEmpty
                · rw [if_pos hemp]
                  rw [ih]
                  dsimp only
                  exact hs1
                · rw [if_neg hemp]
                  cases hins : Store.insertMany (insF s1.counter) s1.store
                      (fresh s1.counter) processed with
                  | mk store1 err =>
                      have hlk : store1.lookup src = s1.store.lookup src := by
                        have h0 := insertMany_lookup_other (insF s1.counter)
                          s1.store (fresh s1.counter) processed src
                          (show ¬ src = fresh s1.counter from
                            fun hh => hfresh s1.counter hh.symm)
                        rw [hins] at h0
                        exact h0
                      cases err with
                      | some e =>
                          simp only [hins]
                          exact hlk.trans hs1
                      | none =>
                          simp only [hins]
                          rw [ih]
                          exact hlk.trans hs1
      · rw [if_neg hc]
        exact ih (sub ++ [stage]) s

/-- Every checkpoint the stage loop tracks is either already tracked or a
freshly drawn name; in particular none of them is the source collection's
name. -/
theorem runStages_temps_ne_src (reg : Registry) (nativeEval : NativeEval)
    (fresh : Nat → String) (insF : Nat → InsertOutcome) (src : String)
    (hfresh : ∀ n, fresh n ≠ src) :
    ∀ (pipeline sub : List Stage) (s : LoopState),
      (∀ t ∈ s.temps, t ≠ src) →
      ∀ t ∈ ((runStages reg nativeEval fresh insF pipeline sub s).1).temps,
        t ≠ src := by
  intro pipeline
  induction pipeline with
  | nil =>
      intro sub s hs
      simp only [runStages]
      split
      · exact hs
      · cases hex : execSub nativeEval fresh sub s with
        | error e => simpa [hex] using hs
        | ok s1 =>
            simp only [hex]
            obtain ⟨outDocs, hs1⟩ := execSub_ok_state _ _ _ _ _ hex
            subst hs1
            dsimp only
            intro t ht
            rcases List.mem_append.mp ht with h | h
            · exact hs t h
            · rw [List.mem_singleton.mp h]; exact hfresh s.counter
  | cons stage rest ih =>
      intro sub s hs
      simp only [runStages]
      by_cases hc : containsCustomOperator reg stage = true
      · rw [if_pos hc]
        cases hflush : (if sub.isEmpty then Except.ok s
            else execSub nativeEval fresh sub s : Except AggError LoopState) with
        | error e => simpa [hflush] using hs
        | ok s1 =>
            simp only [hflush]
            have hs1 : ∀ t ∈ s1.temps, t ≠ src := by
              by_cases hsub : sub.isEmpty
              · rw [if_pos hsub] at hflush
                injection hflush with h1
                rw [← h1]; exact hs
              · rw [if_neg hsub] at hflush
                obtain ⟨outDocs, hsh⟩ := execSub_ok_state _ _ _ _ _ hflush
                subst hsh
                dsimp only
                intro t ht
                rcases List.mem_append.mp ht with h | h
                · exact hs t h
                · rw [List.mem_singleton.mp h]; exact hfresh s.counter
            cases hproc : processCustomStage reg
                (s1.store.findColl s1.current) stage with
            | error e => simpa [hproc] using hs1
            | ok processed =>
                simp only [hproc]
                have hnext : ∀ (t : String),
                    t ∈ s1.temps ++ [fresh s1.counter] → t ≠ src := by
                  intro t ht
                  rcases List.mem_append.mp ht with h | h
                  · exact hs1 t h
                  · rw [List.mem_singleton.mp h]; exact hfresh s1.counter
                by_cases hemp : processed.isEmpty
                · rw [if_pos hemp]
                  exact ih [] _ hnext
                · rw [if_neg hemp]
                  cases hins : Store.insertMany (insF s1.counter) s1.store
                      (fresh s1.counter) processed with
                  | mk store1 err =>
                      cases err with
                      | some e => simpa [hins] using hs1
                      | none =>
                          simp only [hins]
                          exact ih [] _ hnext
      · rw [if_neg hc]
        exact ih (sub ++ [stage]) s hs

/-- A custom `$addFields` stage whose only field is the registered name
`$k` mapped to the inclusion marker: the stage is detected as custom, and
processing it touches no expression evaluation (`new_doc["$k"] =
doc.get("$k")`). -/
def stageC1 : Stage := [("$addFields", .doc [("$k", .int 1)])]

/-- Source store of the leak scenario: collection `c` with two
documents, so that the custom stage's insert has a batch of two and can
fail after writing the first. -/
def storeC1 : Store := [("c", [[("x", .int 1)], [("x", .int 2)]])]

/-- C1 counterexample. When `insert_many` raises after a partial write
(an ordered bulk-write failure on the second document), the temporary
collection was already created by the first write, but
`temp_collections.append` only runs after a successful insert: the
call raises the engine error, the tracked-checkpoint list is empty, the
cleanup phase drops nothing, and the partially written checkpoint `t0`
survives the call — a temporary checkpoint created during the call that
has not been dropped, contradicting the claim on a raising path. -/
theorem claim_C1_counterexample :
    (aggregate regC10 (fun _ _ => .ok []) freshC10
        (fun _ => .failAfter 1 "E11000 duplicate key error") (fun _ => false)
        "c" storeC1 [stageC1]).result =
      .error (.pyMongoError "E11000 duplicate key error") ∧
    (aggregate regC10 (fun _ _ => .ok []) freshC10
        (fun _ => .failAfter 1 "E11000 duplicate key error") (fun _ => false)
        "c" storeC1 [stageC1]).temps = [] ∧
    ((aggregate regC10 (fun _ _ => .ok []) freshC10
        (fun _ => .failAfter 1 "E11000 duplicate key error") (fun _ => false)
        "c" storeC1 [stageC1]).store).lookup "t0" =
      some [[("$k", Value.null)]] ∧
    (some [[("$k", Value.null)]] : Option (List Doc)) ≠ none := by
  refine ⟨rfl, rfl, rfl, by simp⟩

/-- C1 (amended). Cleanup invariant of `aggregate`, for any uuid stream
that avoids the source collection's name: (1) with drops succeeding,
every checkpoint **tracked** by the call has been dropped from the store
— but a checkpoint created by an `insert_many` that raises after a
partial write is never tracked and survives the call; (2) the source
collection's entry is never dropped or modified, whatever inserts or
drops fail; (3) a failing drop never suppresses or replaces the call's
primary result (success or error) — the result is the same as with all
drops succeeding; (4) every failing drop of a tracked checkpoint is
recorded as a warning. -/
theorem claim_C1_cleanup_invariant (reg : Registry) (nativeEval : NativeEval)
    (fresh : Nat → String) (insF : Nat → InsertOutcome) (src : String)
    (store : Store) (pipeline : List Stage) (hfresh : ∀ n, fresh n ≠ src) :
    (∀ name ∈ (aggregate reg nativeEval fresh insF (fun _ => false) src store
        pipeline).temps,
      ((aggregate reg nativeEval fresh insF (fun _ => false) src store
        pipeline).store).lookup name = none) ∧
    (∀ dropFails : String → Bool,
      ((aggregate reg nativeEval fresh insF dropFails src store
        pipeline).store).lookup src = store.lookup src) ∧
    (∀ dropFails : String → Bool,
      (aggregate reg nativeEval fresh insF dropFails src store
        pipeline).result =
      (aggregate reg nativeEval fresh insF (fun _ => false) src store
        pipeline).result) ∧
    (∀ (dropFails : String → Bool) (name : String),
      name ∈ (aggregate reg nativeEval fresh insF dropFails src store
        pipeline).temps →
      dropFails name = true →
      ("Failed to drop temporary collection " ++ name) ∈
        (aggregate reg nativeEval fresh insF dropFails src store
          pipeline).warnings) := by
  have htemps : ∀ t ∈ ((runStages reg nativeEval fresh insF pipeline []
      { store := store, current := src, temps := [], counter := 0 }).1).temps,
      t ≠ src :=
    runStages_temps_ne_src reg nativeEval fresh insF src hfresh pipeline []
      _ (by simp)
  refine ⟨?_, ?_, ?_, ?_⟩
  · intro name hname
    simp only [aggregate] at hname ⊢
    exact cleanup_false_lookup src _ _ name hname (htemps name hname)
  · intro dropFails
    simp only [aggregate]
    rw [cleanup_lookup_src]
    exact runStages_lookup_src reg nativeEval fresh insF src hfresh
      pipeline [] _
  · intro dropFails
    rfl
  · intro dropFails name hname hfail
    simp only [aggregate] at hname ⊢
    exact cleanup_warns dropFails src _ _ name hname (htemps name hname) hfail

/-- C1 witness: on the concrete two-custom-stage run with all inserts
succeeding, the tracked checkpoint `t0` is gone from the final store, the
source collection `c` is intact, the result is unchanged by failing
drops, and with all drops failing the warning for `t0` is logged. -/
theorem claim_C1_witness :
    ((aggregate regC10 (fun _ _ => .ok []) freshC10 (fun _ => .success)
        (fun _ => false) "c" storeC10 [stageC10, stageC10]).store).lookup "t0"
      = none ∧
    ((aggregate regC10 (fun _ _ => .ok []) freshC10 (fun _ => .success)
        (fun _ => true) "c" storeC10 [stageC10, stageC10]).store).lookup "c"
      = storeC10.lookup "c" ∧
    (aggregate regC10 (fun _ _ => .ok []) freshC10 (fun _ => .success)
        (fun _ => true) "c" storeC10 [stageC10, stageC10]).result =
      (aggregate regC10 (fun _ _ => .ok []) freshC10 (fun _ => .success)
        (fun _ => false) "c" storeC10 [stageC10, stageC10]).result ∧
    ("Failed to drop temporary collection " ++ "t0") ∈
      (aggregate regC10 (fun _ _ => .ok []) freshC10 (fun _ => .success)
        (fun _ => true) "c" storeC10 [stageC10, stageC10]).warnings := by
  have hfresh : ∀ n, freshC10 n ≠ "c" := by
    intro n
    unfold freshC10
    split <;> decide
  have h := claim_C1_cleanup_invariant regC10 (fun _ _ => .ok []) freshC10
    (fun _ => .success) "c" storeC10 [stageC10, stageC10] hfresh
  refine ⟨h.1 "t0" ?_, h.2.1 (fun _ => true), h.2.2.1 (fun _ => true),
    h.2.2.2 (fun _ => true) "t0" ?_ rfl⟩
  · exact List.mem_cons_self _ _
  · exact List.mem_cons_self _ _

/-- The mode-switch counter decomposes into one unit per maximal native
run plus one per custom stage. -/
theorem switchesAux_eq_runs_add_custom (reg : Registry) :
    ∀ (pipeline : List Stage) (inRun : Bool),
      switchesAux reg inRun pipeline =
        (if inRun then 1 else 0) + nativeRunsAux reg inRun pipeline +
          pipeline.countP (fun st => containsCustomOperator reg st) := by
  intro pipeline
  induction pipeline with
  | nil => intro inRun; simp [switchesAux, nativeRunsAux]
  | cons stage rest ih =>
      intro inRun
      by_cases hc : containsCustomOperator reg stage = true
      · simp only [switchesAux, nativeRunsAux, hc, if_true, List.countP_cons]
        rw [ih false]
        simp [hc]
        cases inRun <;> simp <;> omega
      · simp only [switchesAux, nativeRunsAux, hc, Bool.false_eq_true,
          if_false, List.countP_cons]
        rw [ih true]
        simp [hc]
        cases inRun <;> simp

/-- On a successful run of the stage loop, the tracked checkpoints grow
by exactly the pending mode-switch count: one per flushed native run and
one per custom stage. -/
theorem runStages_temps_length (reg : Registry) (nativeEval : NativeEval)
    (fresh : Nat → String) (insF : Nat → InsertOutcome) :
    ∀ (pipeline sub : List Stage) (s : LoopState),
      (runStages reg nativeEval fresh insF pipeline sub s).2 = none →
      ((runStages reg nativeEval fresh insF pipeline sub s).1).temps.length =
        s.temps.length + switchesAux reg (!sub.isEmpty) pipeline := by
  intro pipeline
  induction pipeline with
  | nil =>
      intro sub s hok
      simp only [runStages] at hok ⊢
      by_cases hsub : sub.isEmpty
      · rw [if_pos hsub] at hok ⊢
        simp [switchesAux, hsub]
      · rw [if_neg hsub] at hok ⊢
        cases hex : execSub nativeEval fresh sub s with
        | error e =>
            simp only [hex] at hok
            exact Option.noConfusion hok
        | ok s1 =>
            simp only [hex] at hok ⊢
            obtain ⟨outDocs, hs1⟩ := execSub_ok_state _ _ _ _ _ hex
            subst hs1
            simp [switchesAux, hsub]
  | cons stage rest ih =>
      intro sub s hok
      simp only [runStages] at hok ⊢
      by_cases hc : containsCustomOperator reg stage = true
      · rw [if_pos hc] at hok ⊢
        cases hflush : (if sub.isEmpty then Except.ok s
            else execSub nativeEval fresh sub s : Except AggError LoopState) with
        | error e =>
            simp only [hflush] at hok
            exact Option.noConfusion hok
        | ok s1 =>
            simp only [hflush] at hok ⊢
            have hs1len : s1.temps.length =
                s.temps.length + (if !sub.isEmpty then 1 else 0) := by
              by_cases hsub : sub.isEmpty
              · rw [if_pos hsub] at hflush
                injection hflush with h1
                rw [← h1]
                simp [hsub]
              · rw [if_neg hsub] at hflush
                obtain ⟨outDocs, hsh⟩ := execSub_ok_state _ _ _ _ _ hflush
                subst hsh
                simp [hsub]
            cases hproc : processCustomStage reg
                (s1.store.findColl s1.current) stage with
            | error e =>
                simp only [hproc] at hok
                exact Option.noConfusion hok
            | ok processed =>
                simp only [hproc] at hok ⊢
                simp only [switchesAux, hc, if_true]
                by_cases hemp : processed.isEmpty
                · rw [if_pos hemp] at hok ⊢
                  rw [ih [] _ hok]
                  simp
                  omega
                · rw [if_neg hemp] at hok ⊢
                  cases hins : Store.insertMany (insF s1.counter) s1.store
                      (fresh s1.counter) processed with
                  | mk store1 err =>
                      cases err with
                      | some e =>
                          simp only [hins] at hok
                          exact Option.noConfusion hok
                      | none =>
                          simp only [hins] at hok ⊢
                          rw [ih [] _ hok]
                          simp
                          omega
      · rw [if_neg hc] at hok ⊢
        rw [ih (sub ++ [stage]) s hok]
        simp only [switchesAux, hc, Bool.false_eq_true, if_false]
        have h0 : (sub ++ [stage]).isEmpty = false := by cases sub <;> rfl
        rw [h0]
        rfl

/-- C4. On every successful `aggregate` call, the number of checkpoints
created (the tracked temporary collections) equals the pipeline's number
of mode switches between native and custom processing — which is one per
contiguous native run plus one per custom stage, not the number of
stages. -/
theorem claim_C4_checkpoint_count (reg : Registry) (nativeEval : NativeEval)
    (fresh : Nat → String) (insF : Nat → InsertOutcome)
    (dropFails : String → Bool) (src : String) (store : Store)
    (pipeline : List Stage)
    (h : exceptIsOk (aggregate reg nativeEval fresh insF dropFails src store
      pipeline).result = true) :
    (aggregate reg nativeEval fresh insF dropFails src store
        pipeline).temps.length = modeSwitches reg pipeline ∧
    modeSwitches reg pipeline =
      nativeRunCount reg pipeline + customStageCount reg pipeline := by
  constructor
  · have hok : (runStages reg nativeEval fresh insF pipeline []
        { store := store, current := src, temps := [], counter := 0 }).2 =
        none := by
      simp only [aggregate] at h
      cases herr : (runStages reg nativeEval fresh insF pipeline []
          { store := store, current := src, temps := [], counter := 0 }).2 with
      | none => rfl
      | some e => rw [herr] at h; simp [exceptIsOk] at h
    simp only [aggregate]
    rw [runStages_temps_length reg nativeEval fresh insF pipeline [] _ hok]
    simp [modeSwitches]
  · simp only [modeSwitches, nativeRunCount, customStageCount]
    rw [switchesAux_eq_runs_add_custom reg pipeline false]
    simp

/-- C4 witness: the concrete two-custom-stage run succeeds, creates two
checkpoints, and two is the pipeline's mode-switch count (zero native
runs plus two custom stages). -/
theorem claim_C4_witness :
    (aggregate regC10 (fun _ _ => .ok []) freshC10 (fun _ => .success)
        (fun _ => false) "c" storeC10 [stageC10, stageC10]).temps.length =
      modeSwitches regC10 [stageC10, stageC10] ∧
    modeSwitches regC10 [stageC10, stageC10] =
      nativeRunCount regC10 [stageC10, stageC10] +
        customStageCount regC10 [stageC10, stageC10] :=
  claim_C4_checkpoint_count regC10 (fun _ _ => .ok []) freshC10
    (fun _ => .success) (fun _ => false) "c" storeC10 [stageC10, stageC10] rfl
